import Mathlib

/-!
Verification of the section-extraction pipeline and search scoring of the
SF Historic Context Statements search tool.

The development shallowly embeds the Python modules
`backend/build_manifest.py` and `backend/sections.py`.  PDF text extraction
(the `fitz` library) is abstracted: a document is a list of page texts
(`List String`), mirroring `extract_pdf_text_safely`, which returns a page's
text or the empty string.  Python strings are modelled as `List Char`
(ASCII; `str.lower` is `Char.toLower`, whitespace is the ASCII whitespace
set).  Python floats in relevance scores are modelled exactly: every score
the code manipulates is a multiple of 0.5 and float arithmetic on such
values is exact, so scores are stored as integers equal to TWICE the float
value (10.0 ↦ 20, 1.5 ↦ 3, the 3.0 filter threshold ↦ 6).  The regular
expressions of the source are embedded by hand; each embedding is annotated
with the original pattern and with the (forced) backtracking behaviour it
implements.
-/

namespace SfHcs

/-! ## Basic Python string primitives -/

/-- ASCII whitespace, as matched by Python's `str.strip`, `str.split()` and
the regex class `\s` on ASCII text. -/
def isPySpace (c : Char) : Bool :=
  c = ' ' || c = '\t' || c = '\n' || c = '\r' || c = '\x0b' || c = '\x0c'

/-- Python `\d` / `str.isdigit` on ASCII. -/
def isDigitCh (c : Char) : Bool := '0' ≤ c && c ≤ '9'

/-- Python regex `\w` (word character) on ASCII. -/
def isWordCh (c : Char) : Bool :=
  ('a' ≤ c && c ≤ 'z') || ('A' ≤ c && c ≤ 'Z') || isDigitCh c || c = '_'

def isUpperCh (c : Char) : Bool := 'A' ≤ c && c ≤ 'Z'

def isLowerCh (c : Char) : Bool := 'a' ≤ c && c ≤ 'z'

/-- Python `str.lower` (ASCII). -/
def pyLower (l : List Char) : List Char := l.map Char.toLower

/-- Python startswith: `listStarts n h` = `h` starts with `n` (Python `str.startswith`). -/
def listStarts : List Char → List Char → Bool
  | [], _ => true
  | _ :: _, [] => false
  | a :: as, b :: bs => a = b && listStarts as bs

/-- Python `needle in haystack` (substring test). -/
def containsSub (n : List Char) : List Char → Bool
  | [] => listStarts n []
  | c :: t => listStarts n (c :: t) || containsSub n t

/-- Case-insensitive prefix test (used for `re.I` literal matching). -/
def startsCI : List Char → List Char → Bool
  | [], _ => true
  | _ :: _, [] => false
  | a :: as, b :: bs => a.toLower = b.toLower && startsCI as bs

/-- Python `str.strip()`: drop ASCII whitespace from both ends. -/
def pyStrip (l : List Char) : List Char :=
  ((l.dropWhile isPySpace).reverse.dropWhile isPySpace).reverse

/-- Length of the leading whitespace run (regex `\s*` / `\s+` greedy). -/
def wsRunLen (l : List Char) : Nat := (l.takeWhile isPySpace).length

/-- Length of the leading run of literal dots (regex `\.{2,}` greedy). -/
def dotRunLen (l : List Char) : Nat := (l.takeWhile (· = '.')).length

/-- Python `int(...)` on a digit string. -/
def natOfDigits (l : List Char) : Nat :=
  l.foldl (fun a c => 10 * a + (c.toNat - 48)) 0

/-- Line-break characters recognised by Python `str.splitlines` (ASCII ones). -/
def isLineBreak (c : Char) : Bool :=
  c = '\n' || c = '\r' || c = '\x0b' || c = '\x0c'

/-- Worker for `pySplitlines`; `\r\n` counts as a single break. -/
def splitlinesGo (cur : List Char) : List Char → List (List Char)
  | [] => if cur = [] then [] else [cur.reverse]
  | '\r' :: '\n' :: rest => cur.reverse :: splitlinesGo [] rest
  | c :: rest =>
    if isLineBreak c then cur.reverse :: splitlinesGo [] rest
    else splitlinesGo (c :: cur) rest

/-- Python `str.splitlines()` (no trailing empty line). -/
def pySplitlines (l : List Char) : List (List Char) := splitlinesGo [] l

/-- Worker for `splitOnNl`. -/
def splitOnNlGo (cur : List Char) : List Char → List (List Char)
  | [] => [cur.reverse]
  | c :: rest =>
    if c = '\n' then cur.reverse :: splitOnNlGo [] rest
    else splitOnNlGo (c :: cur) rest

/-- Python `str.split('\n')` (keeps trailing empty fields). -/
def splitOnNl (l : List Char) : List (List Char) := splitOnNlGo [] l

/-- Worker for `collapseWs`: the Bool records whether the previous character
was whitespace (so a whole run becomes one space). -/
def collapseGo : Bool → List Char → List Char
  | _, [] => []
  | inWs, c :: rest =>
    if isPySpace c then
      if inWs then collapseGo true rest else ' ' :: collapseGo true rest
    else c :: collapseGo false rest

/-- Python `re.sub(r'\s+', ' ', s)`: collapse whitespace runs to one space. -/
def collapseWs (l : List Char) : List Char := collapseGo false l

/-- Python `s.replace('..', '')`: remove non-overlapping `..` pairs,
scanning left to right. -/
def removeDotPairs : List Char → List Char
  | [] => []
  | '.' :: '.' :: r => removeDotPairs r
  | c :: r => c :: removeDotPairs r

/-- Python `s.replace('…', '')`. -/
def removeEllipsis (l : List Char) : List Char := l.filter (· ≠ '…')

/-! ## `parse_toc_lines` (build_manifest.py lines 65–121)

Pattern 1 is `re.search(r"(.+?)(?:\s+\.{2,}\s*|\s{3,})\b(\d{1,4})\b\s*$", line)`
on an already-stripped line.  Because the line has no trailing whitespace,
`\s*$` forces the digit group to end the line, and the `\b` assertions are
then automatic (the character before the digits is whitespace or a dot).
Greedy sub-expressions cannot stop inside a run of their own character
class (the next atom would fail), so for a fixed cut point the separator
match is forced: a full whitespace run, then a full dot run (length ≥ 2),
then a full whitespace run, then 1–4 digits reaching the end of the line —
or, for the second alternative, a whitespace run of length ≥ 3 followed by
1–4 digits reaching the end.  The lazy `(.+?)` together with `re.search`'s
leftmost preference yields the shortest nonempty prefix admitting such a
completion (a match starting at a later offset always induces one starting
at offset 0 with a longer prefix). -/

/-- The tail of pattern 1 after the label group: `(?:\s+\.{2,}\s*|\s{3,})`
followed by `(\d{1,4})` reaching the end of the (stripped) line.  Returns
the captured page number. -/
def tocTail1 (rest : List Char) : Option Nat :=
  let a := wsRunLen rest
  let afterWs := rest.drop a
  let b := dotRunLen afterWs
  let afterDots := afterWs.drop b
  let c := wsRunLen afterDots
  let s3 := afterDots.drop c
  if 1 ≤ a && 2 ≤ b && 1 ≤ s3.length && s3.length ≤ 4 && s3.all isDigitCh then
    some (natOfDigits s3)
  else
    let s2 := rest.drop a
    if 3 ≤ a && 1 ≤ s2.length && s2.length ≤ 4 && s2.all isDigitCh then
      some (natOfDigits s2)
    else none

/-- Search for the shortest nonempty label prefix of pattern 1; `acc` holds
the reversed prefix consumed so far. -/
def tocPat1Go (acc : List Char) : List Char → Option (List Char × Nat)
  | [] => none
  | c :: rest =>
    match tocTail1 rest with
    | some pg => some ((c :: acc).reverse, pg)
    | none => tocPat1Go (c :: acc) rest

/-- Pattern 1: `"Label ........ 30"` or `"Label     30"`. -/
def tocPat1 (line : List Char) : Option (List Char × Nat) := tocPat1Go [] line

/-- The tail of pattern 2, `re.search(r"(.+?)\s+(\d{1,4})\s*$", line)`, after
the label group: a whitespace run (forced full, since a digit must follow)
then 1–4 digits reaching the end of the stripped line. -/
def tocTail2 (rest : List Char) : Option Nat :=
  let a := wsRunLen rest
  let s := rest.drop a
  if 1 ≤ a && 1 ≤ s.length && s.length ≤ 4 && s.all isDigitCh then
    some (natOfDigits s)
  else none

/-- Search for the shortest nonempty label prefix of pattern 2. -/
def tocPat2Go (acc : List Char) : List Char → Option (List Char × Nat)
  | [] => none
  | c :: rest =>
    match tocTail2 rest with
    | some pg => some ((c :: acc).reverse, pg)
    | none => tocPat2Go (c :: acc) rest

/-- Pattern 2: `"Label 30"` (simple space separation). -/
def tocPat2 (line : List Char) : Option (List Char × Nat) := tocPat2Go [] line

/-- Label clean-up (lines 101–103): the group was already `.strip()`ped;
then collapse whitespace, remove `..` pairs and `…`, and strip again. -/
def cleanLabel (g : List Char) : List Char :=
  pyStrip (removeEllipsis (removeDotPairs (collapseWs g)))

/-- Python `re.match(r'^\d+$', s)`: nonempty and purely digits. -/
def isPureNumber (s : List Char) : Bool := 1 ≤ s.length && s.all isDigitCh

def genericTerms : List String :=
  ["introduction", "overview", "summary", "conclusion", "appendix"]

def domainTerms : List String :=
  ["style", "criteria", "context", "theme", "evaluation", "greek", "gothic",
   "victorian"]

/-- The "skip obviously wrong entries" and "skip very generic entries"
filters (lines 105–118), applied to the cleaned label and page. -/
def tocSkip (label : List Char) (page : Nat) : Bool :=
  let low := pyLower label
  page = 0 || label.length < 3 ||
  containsSub "table of contents".data low ||
  low = "contents".data ||
  listStarts "page ".data low ||
  isPureNumber (pyStrip label) ||
  (genericTerms.any (fun t => containsSub t.data low) &&
    !(domainTerms.any (fun t => containsSub t.data low)))

/-- One line's raw `(group, page)` before clean-up: pattern 1, else
pattern 2, else pattern 3 (next line purely digits).  `rest` is the list of
the following raw lines.  The group of patterns 1/2 is `.strip()`ped at
extraction (lines 85, 91); pattern 3 uses the stripped current line. -/
def tocLineResult (line : List Char) (rest : List (List Char)) :
    Option (List Char × Nat) :=
  match tocPat1 line with
  | some (g, p) => some (pyStrip g, p)
  | none =>
    match tocPat2 line with
    | some (g, p) => some (pyStrip g, p)
    | none =>
      match rest with
      | [] => none
      | nxt :: _ =>
        let ns := pyStrip nxt
        if isPureNumber ns then some (line, natOfDigits ns) else none

/-- What one raw line contributes (`None` = `continue`): skip empty lines,
try the three patterns, clean the label, apply the filters. -/
def tocEmit (raw : List Char) (rest : List (List Char)) : Option (String × Nat) :=
  if pyStrip raw = [] then none
  else
    match tocLineResult (pyStrip raw) rest with
    | none => none
    | some (g, p) =>
      if tocSkip (cleanLabel g) p then none
      else some (String.mk (cleanLabel g), p)

/-- The loop body of `parse_toc_lines` over the splitlines list. -/
def tocGo : List (List Char) → List (String × Nat)
  | [] => []
  | raw :: rest =>
    match tocEmit raw rest with
    | none => tocGo rest
    | some x => x :: tocGo rest

/-- Function `parse_toc_lines(text)`: parse ToC-like lines into `(label, page)`. -/
def parse_toc_lines (text : String) : List (String × Nat) :=
  tocGo (pySplitlines text.data)


/-! ## Data model -/

/-- A manifest section: `{"label": ..., "start": ...}` (1-based page). -/
structure Sec where
  label : String
  start : Nat
deriving DecidableEq, Repr

/-- A manifest document entry: `{"title": ..., "sections": ..., "total_pages": ...}`. -/
structure DocEntry where
  title : String
  sections : List Sec
  total_pages : Nat
deriving DecidableEq, Repr

/-! ## `is_bio_document` / `parse_bio_document` (lines 172–224) -/

/-- Function `is_bio_document(filename)`: `'bios_' in filename.lower()`. -/
def is_bio_document (filename : String) : Bool :=
  containsSub "bios_".data (pyLower filename.data)

/-- Pattern `re.match(r'^[A-Z][a-z]+, [A-Z]', line)`: the greedy `[a-z]+` is forced
to consume the full lowercase run (a shorter run would leave a lowercase
character where `,` is required). -/
def bioRule1 : List Char → Bool
  | [] => false
  | c :: rest =>
    isUpperCh c &&
    (let k := (rest.takeWhile isLowerCh).length
     match rest.drop k with
     | ',' :: ' ' :: u :: _ => 1 ≤ k && isUpperCh u
     | _ => false)

/-- Pattern `re.search(r'[A-Z][a-z]+\s+\+\s+[A-Z][a-z]+', ...)` anchored at the
current position; each greedy run is forced full because the following
atom is outside its character class. -/
def bioRule3At : List Char → Bool
  | [] => false
  | c :: rest =>
    isUpperCh c &&
    (let k := (rest.takeWhile isLowerCh).length
     let r1 := rest.drop k
     let w1 := wsRunLen r1
     1 ≤ k && 1 ≤ w1 &&
     (match r1.drop w1 with
      | '+' :: r2 =>
        let w2 := wsRunLen r2
        1 ≤ w2 &&
        (match r2.drop w2 with
         | u :: r4 => isUpperCh u && 1 ≤ (r4.takeWhile isLowerCh).length
         | [] => false)
      | _ => false))

/-- Search semantics of `re.search` for the firm-name pattern: try every start position. -/
def bioRule3 : List Char → Bool
  | [] => false
  | c :: rest => bioRule3At (c :: rest) || bioRule3 rest

/-- The `if`/`elif`/`elif` rule chain of `parse_bio_document` for one
stripped line (which is nonempty and of length ≥ 3).  Note the chain stops
at the first rule whose *condition* holds, even when that rule's inner
length check then rejects the line. -/
def bioLineSections (pageNum : Nat) (line : List Char) : List Sec :=
  if bioRule1 line then
    -- name = line.split(',')[0].strip(); appended only if len(name) > 2
    (if 2 < (pyStrip (line.takeWhile (· != ','))).length then
      [⟨String.mk line, pageNum + 1⟩] else [])
  else if listStarts "See also:".data line && 10 < line.length then
    -- names_part = line[10:].strip()
    (let namesPart := pyStrip (line.drop 10)
     if 1 ≤ namesPart.length && 3 < namesPart.length then
      [⟨String.mk line, pageNum + 1⟩] else [])
  else if bioRule3 line then
    (if 5 < line.length && !listStarts "See also:".data line then
      [⟨String.mk line, pageNum + 1⟩] else [])
  else []

/-- Function `parse_bio_document(doc)`: scan every page, split its text on `'\n'`,
strip each line, skip empty or shorter-than-3 lines, and apply the rule
chain.  Pages are 1-based in the emitted sections. -/
def parse_bio_document (pages : List String) : List Sec :=
  pages.enum.flatMap (fun pt =>
    if pt.2 = "" then []
    else
      (splitOnNl pt.2.data).flatMap (fun l =>
        let line := pyStrip l
        if line = [] || line.length < 3 then [] else bioLineSections pt.1 line))

/-! ## `scan_headings` (lines 123–135) and `LABEL_PATTERNS`

Each label pattern is a case-insensitive literal, possibly with one
optional character (`[s]?`, `[- ]?`, `[/\\]?`), ending either in
`:\s*.+` (prefix-style patterns) or in `\b` (style-name patterns).
`re.finditer` produces non-overlapping matches scanning left to right. -/

inductive PatTok where
  | lit (s : String)
  | optCh (cs : List Char)
  | wb
  | wsDotLine

/-- Token `\s*.+` at the end of a pattern: `\s*` greedily eats the whitespace run
(newlines included), backing off while the next character is a newline
(`.` does not match `'\n'`); `.+` then greedily runs to the end of the
line.  `k` is the number of whitespace characters currently consumed. -/
def wsDotTry (cs : List Char) : Nat → Option Nat
  | 0 =>
    match cs with
    | c :: _ =>
      if c = '\n' then none else some ((cs.takeWhile (· != '\n')).length)
    | [] => none
  | k + 1 =>
    match cs.drop (k + 1) with
    | c :: _ =>
      if c = '\n' then wsDotTry cs k
      else some (k + 1 + ((cs.drop (k + 1)).takeWhile (· != '\n')).length)
    | [] => wsDotTry cs k

/-- Match a token list at the start of `cs` (with `re.I`), returning the
number of characters consumed.  `wb` asserts a word boundary: every
pattern character before it is a letter, so the assertion holds exactly
when the next character is absent or not a word character.  `wsDotLine`
is the final token of every pattern that uses it. -/
def matchToks : List PatTok → List Char → Option Nat
  | [], _ => some 0
  | .lit s :: ts, cs =>
    if startsCI s.data cs then
      (matchToks ts (cs.drop s.data.length)).map (· + s.data.length)
    else none
  | .optCh set :: ts, cs =>
    (match cs with
     | c :: rest =>
       if set.contains c.toLower then
         match matchToks ts rest with
         | some n => some (n + 1)
         | none => matchToks ts cs
       else matchToks ts cs
     | [] => matchToks ts cs)
  | .wb :: ts, cs =>
    (match cs with
     | c :: _ => if isWordCh c then none else matchToks ts cs
     | [] => matchToks ts cs)
  | .wsDotLine :: _, cs => wsDotTry cs (wsRunLen cs)

/-- Semantics of `re.finditer`: scan left to right, resuming after each match
(non-overlapping).  Every pattern starts with a nonempty literal, so
matches consume at least one character; the fuel equals the input length. -/
def finditGo (toks : List PatTok) : Nat → List Char → List (List Char)
  | 0, _ => []
  | _, [] => []
  | fuel + 1, c :: rest =>
    match matchToks toks (c :: rest) with
    | some n =>
      if 1 ≤ n then (c :: rest).take n :: finditGo toks fuel ((c :: rest).drop n)
      else finditGo toks fuel rest
    | none => finditGo toks fuel rest

def finditAll (toks : List PatTok) (cs : List Char) : List (List Char) :=
  finditGo toks cs.length cs

/-- Table `LABEL_PATTERNS` (lines 9–63), in source order. -/
def labelPatterns : List (List PatTok) := [
  [.lit "Evaluation Criteria:", .wsDotLine],
  [.lit "Evaluative Framework", .optCh ['s'], .lit ":", .wsDotLine],
  [.lit "Evaluative Criteria:", .wsDotLine],
  [.lit "Style:", .wsDotLine],
  [.lit "Sub", .optCh ['-', ' '], .lit "style:", .wsDotLine],
  [.lit "Theme:", .wsDotLine],
  [.lit "Sub", .optCh ['-', ' '], .lit "Theme:", .wsDotLine],
  [.lit "Sub", .optCh ['-', ' '], .lit "theme:", .wsDotLine],
  [.lit "Historic Context:", .wsDotLine],
  [.lit "Historical Context:", .wsDotLine],
  [.lit "Context Statement:", .wsDotLine],
  [.lit "Property Type:", .wsDotLine],
  [.lit "Building Type:", .wsDotLine],
  [.lit "Resource Type:", .wsDotLine],
  [.lit "Period of Significance:", .wsDotLine],
  [.lit "Time Period:", .wsDotLine],
  [.lit "Era:", .wsDotLine],
  [.lit "Gothic Revival", .wb],
  [.lit "Art Deco", .wb],
  [.lit "Streamline Moderne", .wb],
  [.lit "International Style", .wb],
  [.lit "Queen Anne", .wb],
  [.lit "Italianate", .wb],
  [.lit "Second Empire", .wb],
  [.lit "Stick", .optCh ['/', '\\'], .lit "Eastlake", .wb],
  [.lit "Folk Victorian", .wb],
  [.lit "Greek Revival", .wb],
  [.lit "Neoclassical", .wb],
  [.lit "Colonial Revival", .wb],
  [.lit "Tudor Revival", .wb],
  [.lit "Spanish Colonial Revival", .wb],
  [.lit "Mission Revival", .wb],
  [.lit "Craftsman", .wb],
  [.lit "Bungalow", .wb],
  [.lit "Prairie School", .wb],
  [.lit "Art Moderne", .wb],
  [.lit "Moderne", .wb],
  [.lit "Bauhaus", .wb],
  [.lit "Mid", .optCh ['-', ' '], .lit "Century Modern", .wb],
  [.lit "Brutalist", .wb],
  [.lit "New Formalism", .wb],
  [.lit "Postmodern", .wb]]

/-- Function `scan_headings(page_num, text)`: every finditer hit, stripped and
whitespace-collapsed; hits shorter than 8 characters are kept only when
they contain one of the exact (case-sensitive) short style names. -/
def scan_headings (page_num : Nat) (text : String) : List (String × Nat) :=
  labelPatterns.flatMap (fun pat =>
    (finditAll pat text.data).filterMap (fun m =>
      let label := String.mk (collapseWs (pyStrip m))
      if label.data.length < 8 &&
         !(["Art Deco", "Moderne", "Bauhaus"].any
            (fun st => containsSub st.data label.data)) then
        none
      else some (label, page_num)))

/-! ## `find_toc_pages` (lines 146–170) and the per-document assembly -/

/-- Abstraction of `extract_pdf_text_safely`: page text, or `""` when unreadable /
out of range.  A document is its list of page texts. -/
def pageTextAt (pages : List String) (p : Nat) : String := pages.getD p ""

def tocIndicators : List String :=
  ["table of contents", "contents", "index", "evaluation criteria:",
   "theme:", "style:", "page", "chapter"]

def countDots (t : String) : Nat := (t.data.filter (· = '.')).length

/-- Function `find_toc_pages(doc, max_pages=10)`. -/
def find_toc_pages (pages : List String) : List Nat :=
  let cand := (List.range (min 10 pages.length)).filter (fun p =>
    let t := pageTextAt pages p
    (t != "") &&
    (tocIndicators.any (fun ind => containsSub ind.data (pyLower t.data)) ||
      20 < countDots t))
  if cand = [] then List.range (min 7 pages.length) else cand

/-- Stable insertion used by `pySort`: an element is placed before the
first element `y` with `le x y`, i.e. before every equivalent element
already placed — which, combined with right-to-left insertion, reproduces
the (unique) stable sort that Python's `sorted` computes. -/
def pyInsert (le : α → α → Bool) (x : α) : List α → List α
  | [] => [x]
  | y :: ys => if le x y then x :: y :: ys else y :: pyInsert le x ys

/-- Python `sorted(l, key=...)` as a stable sort by the Boolean preorder. -/
def pySort (le : α → α → Bool) : List α → List α
  | [] => []
  | x :: xs => pyInsert le x (pySort le xs)

/-- The `seen`-set deduplication loop: keep the first occurrence of each
key, in order. -/
def dedupeBy (key : α → κ) [DecidableEq κ] (seen : List κ) : List α → List α
  | [] => []
  | x :: xs =>
    if key x ∈ seen then dedupeBy key seen xs
    else x :: dedupeBy key (key x :: seen) xs

/-- Deduplication key `(label.lower().strip(), start)` of a raw ToC hit. -/
def pairKey (x : String × Nat) : List Char × Nat :=
  (pyStrip (pyLower x.1.data), x.2)

/-- Deduplication key of an assembled section. -/
def secKeyL (s : Sec) : List Char × Nat :=
  (pyStrip (pyLower s.label.data), s.start)

/-- ToC branch of `build_manifest` (lines 266–274): sort the hits by page
(stably), deduplicate, and build section records. -/
def tocSectionsOf (tocHits : List (String × Nat)) : List Sec :=
  (dedupeBy pairKey [] (pySort (fun a b => decide (a.2 ≤ b.2)) tocHits)).map
    (fun x => ⟨x.1, x.2⟩)

def secLe (a b : Sec) : Bool := decide (a.start ≤ b.start)

/-- Python `os.path.splitext(filename)[0]`: drop the extension after the last dot,
ignoring leading dots. -/
def splitextStem (filename : String) : String :=
  let cs := filename.data
  let lead := (cs.takeWhile (· == '.')).length
  let dotIdxs := (cs.enum.filter (fun ic => ic.2 == '.')).map (·.1)
  match dotIdxs.getLast? with
  | some j => if lead ≤ j then String.mk (cs.take j) else filename
  | none => filename

/-- Fallback branch (lines 288–309): heading-scan the first
`min(len(doc), 200)` pages with the shared `seen`-set deduplication. -/
def fallbackSections (pages : List String) : List Sec :=
  dedupeBy secKeyL []
    ((List.range (min pages.length 200)).flatMap (fun p =>
      let t := pageTextAt pages p
      if t = "" then []
      else (scan_headings (p + 1) t).map (fun x => (⟨x.1, x.2⟩ : Sec))))

/-- Lines 253–264: run the ToC line parser on every candidate ToC page
(`if text:` skips unreadable pages) and merge the hits. -/
def tocHitsOf (pages : List String) : List (String × Nat) :=
  (find_toc_pages pages).flatMap (fun p =>
    let t := pageTextAt pages p
    if t = "" then [] else parse_toc_lines t)

/-- Lines 266–276: the section list after the ToC stage (`if toc_hits:`). -/
def sectionsFromToc (pages : List String) : List Sec :=
  if tocHitsOf pages = [] then [] else tocSectionsOf (tocHitsOf pages)

/-- Lines 278–286: the bio-document override.  The bio sections *replace*
the ToC sections only when the bio scan found something; otherwise the
code logs "using regular parsing" and keeps the ToC sections. -/
def sectionsAfterBio (filename : String) (pages : List String) : List Sec :=
  if is_bio_document filename then
    (if parse_bio_document pages = [] then sectionsFromToc pages
     else parse_bio_document pages)
  else sectionsFromToc pages

/-- Lines 288–309: heading-scan fallback when no sections were found. -/
def sectionsFinal (filename : String) (pages : List String) : List Sec :=
  if sectionsAfterBio filename pages = [] then fallbackSections pages
  else sectionsAfterBio filename pages

/-- The per-document body of `build_manifest` (lines 245–317): ToC
extraction, bio-document override, heading-scan fallback, and the final
sort of the section list (line 315).  Returns `none` when no sections are
found (the document contributes no manifest entry). -/
def assembleDoc (filename : String) (pages : List String) : Option DocEntry :=
  if sectionsFinal filename pages = [] then none
  else
    some ⟨splitextStem filename, pySort secLe (sectionsFinal filename pages),
          pages.length⟩

/-- Function `build_manifest()` over an already-extracted corpus: one entry per
document that yields sections, keyed by filename. -/
def build_manifest (docs : List (String × List String)) :
    List (String × DocEntry) :=
  docs.filterMap (fun d => (assembleDoc d.1 d.2).map (fun e => (d.1, e)))


/-! ## `search_all_sections` (sections.py lines 32–174)

Scores are Python floats; every value the code produces is a multiple of
0.5 (tiers 10.0 / 8.0 / 5.0 / 4.0 / 3.0 / 2.0, adjustments +2.0 / +1.5 /
−1.0) and float addition and comparison on such small halves is exact, so
scores are embedded as integers holding TWICE the float value: 10.0 ↦ 20,
1.5 ↦ 3, the 3.0 threshold ↦ 6. -/

/-- Table `style_patterns` (lines 38–66), in source order. -/
def style_patterns : List (String × String) := [
  ("greek", "greek revival"),
  ("gothic", "gothic revival"),
  ("art deco", "art deco"),
  ("streamline", "streamline moderne"),
  ("international", "international style"),
  ("queen anne", "queen anne"),
  ("italianate", "italianate"),
  ("second empire", "second empire"),
  ("stick", "stick/eastlake"),
  ("eastlake", "stick/eastlake"),
  ("folk victorian", "folk victorian"),
  ("neoclassical", "neoclassical"),
  ("colonial", "colonial revival"),
  ("tudor", "tudor revival"),
  ("spanish", "spanish colonial revival"),
  ("mission", "mission revival"),
  ("craftsman", "craftsman"),
  ("bungalow", "bungalow"),
  ("prairie", "prairie school"),
  ("art moderne", "art moderne"),
  ("moderne", "art moderne"),
  ("bauhaus", "bauhaus"),
  ("mid century", "mid-century modern"),
  ("mid-century", "mid-century modern"),
  ("brutalist", "brutalist"),
  ("new formalism", "new formalism"),
  ("postmodern", "postmodern")]

/-- The `architect_names` dict literal (lines 69–105) exactly as written,
including its duplicated keys (`'mclaren'` and `'donald mclaren'` appear
twice). -/
def architectNamesRaw : List (String × String) := [
  ("anderson", "Anderson"),
  ("christian", "Christian"),
  ("christian anderson", "Christian Anderson"),
  ("anderson christian", "Christian Anderson"),
  ("denck", "Denck"),
  ("edmund", "Edmund"),
  ("edmund denck", "Edmund Denck"),
  ("denck edmund", "Edmund Denck"),
  ("august", "August"),
  ("august denck", "August Denck"),
  ("denck august", "August Denck"),
  ("daniels", "Daniels"),
  ("dillman", "Dillman"),
  ("daniels dillman", "Daniels & Dillman"),
  ("dillman daniels", "Daniels & Dillman"),
  ("osmont", "Osmont"),
  ("daniels osmont", "Daniels & Osmont"),
  ("osmont daniels", "Daniels & Osmont"),
  ("wilhelm", "Wilhelm"),
  ("daniels wilhelm", "Daniels & Wilhelm"),
  ("wilhelm daniels", "Daniels & Wilhelm"),
  ("mclaren", "McLaren"),
  ("donald", "Donald"),
  ("donald mclaren", "Donald McLaren"),
  ("mclaren donald", "Donald McLaren"),
  ("mc dougall", "McDougall"),
  ("mcdougall", "McDougall"),
  ("barnett", "Barnett"),
  ("barnett mc dougall", "Barnett McDougall"),
  ("mc dougall barnett", "Barnett McDougall"),
  ("marquis", "Marquis"),
  ("mc dougall marquis", "McDougall & Marquis"),
  ("marquis mc dougall", "McDougall & Marquis"),
  ("mclaren", "McDougall"),
  ("donald mclaren", "Donald McDougall")]

/-- Python dict-literal semantics for duplicated keys: a key keeps its
first insertion position, its value is the last one written. -/
def dictUpsert (l : List (String × String)) : List (String × String) :=
  l.foldl (fun acc kv =>
    if acc.any (fun e => e.1 == kv.1) then
      acc.map (fun e => if e.1 == kv.1 then (e.1, kv.2) else e)
    else acc ++ [kv]) []

/-- The effective `architect_names` dict: `'mclaren' ↦ 'McDougall'`,
`'donald mclaren' ↦ 'Donald McDougall'`. -/
def architect_names : List (String × String) := dictUpsert architectNamesRaw

/-- The `for ...: if pattern in query: ...; break` expansion loop: value of
the first table entry whose key is a substring of the query. -/
def firstMatchVal (tbl : List (String × String)) (q : List Char) :
    Option (List Char) :=
  match tbl with
  | [] => none
  | kv :: r => if containsSub kv.1.data q then some kv.2.data else firstMatchVal r q

/-- Query expansion (lines 107–118): the style loop runs first, the
architect loop runs afterwards and overwrites its result on a hit. -/
def expandQuery (q : List Char) : List Char :=
  match firstMatchVal architect_names q with
  | some v => v
  | none => (firstMatchVal style_patterns q).getD q

/-- Expression `section["label"].lower().split('\n')[0].strip()`. -/
def firstLineOf (label : String) : List Char :=
  pyStrip ((pyLower label.data).takeWhile (· != '\n'))

/-- Python `str.split()` (split on whitespace runs, no empty parts). -/
def splitWsGo (cur : List Char) : List Char → List (List Char)
  | [] => if cur = [] then [] else [cur.reverse]
  | c :: r =>
    if isPySpace c then
      (if cur = [] then splitWsGo [] r else cur.reverse :: splitWsGo [] r)
    else splitWsGo (c :: cur) r

def pySplitWs (l : List Char) : List (List Char) := splitWsGo [] l

/-- The tiered base score (lines 131–147), doubled: 10.0 ↦ 20, 8.0 ↦ 16,
5.0 ↦ 10, 3.0 ↦ 6, 4.0 ↦ 8, 2.0 ↦ 4. -/
def rawScore (query_lower expanded_query first_line : List Char) : Int :=
  if query_lower = first_line then 20
  else if containsSub expanded_query first_line then 16
  else if containsSub query_lower first_line then 10
  else if style_patterns.any (fun kv =>
      containsSub kv.1.data query_lower && containsSub kv.1.data first_line) then 6
  else if architect_names.any (fun kv =>
      containsSub (pyLower kv.2.data) query_lower &&
      containsSub (pyLower kv.2.data) first_line) then 8
  else if (pySplitWs query_lower).any (fun part =>
      2 < part.length && containsSub part first_line) then 4
  else 0

/-- The additive adjustments (lines 149–159), doubled: +2.0 ↦ +4,
+1.5 ↦ +3, −1.0 ↦ −2.  Note the bio boost tests the *capitalised*
canonical names against the lowercased first line. -/
def sectionScore (doc_file label : String)
    (query_lower expanded_query : List Char) : Int :=
  let first_line := firstLineOf label
  let s0 := rawScore query_lower expanded_query first_line
  let s1 := if containsSub "evaluation criteria".data first_line then s0 + 4 else s0
  let s2 :=
    if containsSub "bios_".data (pyLower doc_file.data) &&
       architect_names.any (fun kv => containsSub kv.2.data first_line) then
      s1 + 3
    else s1
  let s3 := if 200 < (pyLower label.data).length then s2 - 2 else s2
  s3

structure SearchResult where
  doc_file : String
  doc_title : String
  section_label : String
  page : Nat
  score : Int
deriving DecidableEq, Repr

/-- What one section contributes to the result list: the `score > 0` /
`score >= 3.0` filters (lines 161–171); the 3.0 threshold is 6 in doubled
scores. -/
def resultFor (doc_file title : String) (s : Sec)
    (query_lower expanded_query : List Char) : List SearchResult :=
  if 0 < sectionScore doc_file s.label query_lower expanded_query then
    if 6 ≤ sectionScore doc_file s.label query_lower expanded_query then
      [⟨doc_file, title, s.label, s.start,
        sectionScore doc_file s.label query_lower expanded_query⟩]
    else []
  else []

/-- The result-collection loops over all documents and sections
(lines 120–171). -/
def searchResultsRaw (manifest : List (String × DocEntry))
    (query_lower expanded_query : List Char) : List SearchResult :=
  manifest.flatMap (fun de =>
    de.2.sections.flatMap (fun s =>
      resultFor de.1 de.2.title s query_lower expanded_query))

/-- The ranking key `(-score, page)`: descending score, ascending page. -/
def resLe (a b : SearchResult) : Bool :=
  decide (b.score < a.score) || (decide (a.score = b.score) && decide (a.page ≤ b.page))

/-- Function `search_all_sections(manifest, query)`: `query_lower` is the
lowercased stripped query, `expanded_query` its synonym expansion. -/
def search_all_sections (manifest : List (String × DocEntry)) (query : String) :
    List SearchResult :=
  pySort resLe (searchResultsRaw manifest (pyStrip (pyLower query.data))
    (expandQuery (pyStrip (pyLower query.data))))

/-- The score `search_all_sections` assigns to one fixed section (of
document `doc_file`, labelled `label`) for a given raw query string. -/
def queryScore (doc_file label query : String) : Int :=
  sectionScore doc_file label (pyStrip (pyLower query.data))
    (expandQuery (pyStrip (pyLower query.data)))

/-- The query-independent part of `sectionScore`: the three adjustments
depend only on the document filename and the section label. -/
def adjust (doc_file label : String) : Int :=
  (if containsSub "evaluation criteria".data (firstLineOf label) then 4 else 0) +
  (if containsSub "bios_".data (pyLower doc_file.data) &&
      architect_names.any (fun kv => containsSub kv.2.data (firstLineOf label))
   then 3 else 0) +
  (if 200 < (pyLower label.data).length then -2 else 0)

/-- The number of sections over all documents of a manifest. -/
def totalSections (m : List (String × DocEntry)) : Nat :=
  (m.map (fun de => de.2.sections.length)).sum

/-! ## `validate_manifest` (lines 365–427)

Validation runs on the JSON-parsed manifest, whose entries may miss keys;
missing keys are modelled with `Option` fields. -/

structure ValSec where
  label : Option String
  start : Option Int
deriving DecidableEq, Repr

structure ValDoc where
  title : Option String
  sections : Option (List ValSec)
deriving DecidableEq, Repr

/-- Per-section critical issues (lines 398–402). -/
def secIssues (filename : String) (i : Nat) (s : ValSec) : List String :=
  (if s.label.isSome then []
   else [filename ++ " section " ++ toString i ++ ": missing 'label'"]) ++
  (if s.start.isSome then []
   else [filename ++ " section " ++ toString i ++ ": missing 'start' page"])

/-- One document's critical issues: missing `title`, missing `sections`
(which skips the per-section checks via `continue`), and per-section
missing fields. -/
def docIssues (fd : String × ValDoc) : List String :=
  (if fd.2.title.isSome then [] else [fd.1 ++ ": missing 'title' field"]) ++
  (match fd.2.sections with
   | none => [fd.1 ++ ": missing 'sections' field"]
   | some secs => secs.enum.flatMap (fun is => secIssues fd.1 is.1 is.2))

/-- The `issues` list over the whole manifest. -/
def manifestIssues (m : List (String × ValDoc)) : List String :=
  m.flatMap docIssues

/-- Page-ordering warnings (lines 397–407): `prev_page` starts at 0 and is
updated only by sections that carry a `start`. -/
def orderingWarnGo (filename : String) (prev : Int) : List ValSec → List String
  | [] => []
  | s :: r =>
    match s.start with
    | none => orderingWarnGo filename prev r
    | some page =>
      (if page ≤ prev ∧ prev ≠ 0 then
        [filename ++ ": section page not after previous page"] else []) ++
      orderingWarnGo filename page r

/-- The `warnings` list: empty section list (which skips the remaining
checks), page ordering, and absence of 'Evaluation Criteria' sections. -/
def manifestWarnings (m : List (String × ValDoc)) : List String :=
  m.flatMap (fun fd =>
    match fd.2.sections with
    | none => []
    | some secs =>
      if secs = [] then [fd.1 ++ ": no sections found"]
      else
        orderingWarnGo fd.1 0 secs ++
        (if secs.any (fun s =>
            containsSub "evaluation criteria".data (pyLower (s.label.getD "").data))
         then []
         else [fd.1 ++ ": no 'Evaluation Criteria' sections found"]))

/-- Function `validate_manifest` on a parsed manifest: `False` for an empty manifest
(`if not manifest`), `False` when `issues` is nonempty; warnings are only
printed and never affect the result. -/
def validate_manifest (m : List (String × ValDoc)) : Bool :=
  if m = [] then false
  else if manifestIssues m ≠ [] then false
  else true

/-- Per-document form of the claim's structural predicate: the entry has
`title` and `sections`, and every section has `label` and `start`. -/
def docOk (fd : String × ValDoc) : Bool :=
  fd.2.title.isSome &&
  (match fd.2.sections with
   | none => false
   | some secs => secs.all (fun s => s.label.isSome && s.start.isSome))

/-- The claim's structural-issue-free predicate, from the spec's words. -/
def structuralOk (m : List (String × ValDoc)) : Bool := m.all docOk


/-! ## General lemmas about the sorting and deduplication workers -/

theorem perm_pyInsert (le : α → α → Bool) (x : α) :
    ∀ l : List α, (pyInsert le x l).Perm (x :: l) := by
  intro l
  induction l with
  | nil => simp [pyInsert]
  | cons z zs ih =>
    by_cases h : le x z = true
    · rw [pyInsert, if_pos h]
    · rw [pyInsert, if_neg h]
      exact (ih.cons z).trans (List.Perm.swap x z zs)

theorem perm_pySort (le : α → α → Bool) : ∀ l : List α, (pySort le l).Perm l := by
  intro l
  induction l with
  | nil => exact List.Perm.refl _
  | cons x xs ih => exact (perm_pyInsert le x (pySort le xs)).trans (ih.cons x)

theorem mem_pyInsert {le : α → α → Bool} {x y : α} {l : List α} :
    y ∈ pyInsert le x l ↔ y = x ∨ y ∈ l := by
  rw [(perm_pyInsert le x l).mem_iff, List.mem_cons]

theorem pairwise_pyInsert {le : α → α → Bool}
    (htr : ∀ a b c, le a b = true → le b c = true → le a c = true)
    (hto : ∀ a b, le a b = true ∨ le b a = true) (x : α) :
    ∀ l : List α, List.Pairwise (fun a b => le a b = true) l →
      List.Pairwise (fun a b => le a b = true) (pyInsert le x l) := by
  intro l
  induction l with
  | nil => intro; simp [pyInsert]
  | cons z zs ih =>
    intro hp
    rw [List.pairwise_cons] at hp
    obtain ⟨hz, hzs⟩ := hp
    by_cases h : le x z = true
    · rw [pyInsert, if_pos h]
      refine List.Pairwise.cons ?_ (List.Pairwise.cons hz hzs)
      intro b hb
      rcases List.mem_cons.mp hb with rfl | hb
      · exact h
      · exact htr x z b h (hz b hb)
    · rw [pyInsert, if_neg h]
      refine List.Pairwise.cons ?_ (ih hzs)
      intro b hb
      rcases mem_pyInsert.mp hb with heq | hb
      · rw [heq]; exact (hto x z).resolve_left h
      · exact hz b hb

theorem pairwise_pySort {le : α → α → Bool}
    (htr : ∀ a b c, le a b = true → le b c = true → le a c = true)
    (hto : ∀ a b, le a b = true ∨ le b a = true) :
    ∀ l : List α, List.Pairwise (fun a b => le a b = true) (pySort le l) := by
  intro l
  induction l with
  | nil => exact List.Pairwise.nil
  | cons x xs ih => exact pairwise_pyInsert htr hto x (pySort le xs) ih

theorem dedupeBy_spec {κ : Type} [DecidableEq κ] (key : α → κ) :
    ∀ (seen : List κ) (l : List α),
      (∀ a ∈ dedupeBy key seen l, key a ∉ seen) ∧
      List.Pairwise (fun a b => key a ≠ key b) (dedupeBy key seen l) := by
  intro seen l
  induction l generalizing seen with
  | nil => simp [dedupeBy]
  | cons x xs ih =>
    by_cases h : key x ∈ seen
    · rw [dedupeBy, if_pos h]; exact ih seen
    · rw [dedupeBy, if_neg h]
      obtain ⟨h1, h2⟩ := ih (key x :: seen)
      refine ⟨?_, ?_⟩
      · intro a ha
        rcases List.mem_cons.mp ha with rfl | ha
        · exact h
        · intro hs; exact h1 a ha (List.mem_cons_of_mem _ hs)
      · refine List.Pairwise.cons ?_ h2
        intro b hb heq
        apply h1 b hb
        rw [← heq]
        exact List.mem_cons_self _ _

/-! ## Small string lemmas -/

theorem listStarts_refl : ∀ l : List Char, listStarts l l = true := by
  intro l
  induction l with
  | nil => rfl
  | cons c t ih => simp [listStarts, ih]

theorem containsSub_refl : ∀ l : List Char, containsSub l l = true := by
  intro l
  cases l with
  | nil => rfl
  | cons c t => simp [containsSub, listStarts_refl]

theorem isPySpace_eq_false_of_digit (c : Char) (h : isDigitCh c = true) :
    isPySpace c = false := by
  simp only [isDigitCh, Bool.and_eq_true, decide_eq_true_eq] at h
  obtain ⟨h1, h2⟩ := h
  simp only [isPySpace, Bool.or_eq_false_iff, decide_eq_false_iff_not]
  refine ⟨⟨⟨⟨⟨?_, ?_⟩, ?_⟩, ?_⟩, ?_⟩, ?_⟩ <;>
    (intro he; subst he; revert h1 h2; decide)

theorem pyStrip_all_digits (l : List Char) (h : l.all isDigitCh = true) :
    pyStrip l = l := by
  have hds : ∀ m : List Char, m.all isDigitCh = true →
      m.dropWhile isPySpace = m := by
    intro m hm
    cases m with
    | nil => rfl
    | cons c r =>
      rw [List.all_cons, Bool.and_eq_true] at hm
      rw [List.dropWhile_cons, if_neg]
      simp [isPySpace_eq_false_of_digit c hm.1]
  unfold pyStrip
  rw [hds l h, hds l.reverse (by rw [List.all_reverse]; exact h),
    List.reverse_reverse]

/-! ## Membership in `parse_toc_lines` respects the filters -/

theorem tocEmit_skip {raw : List Char} {rest : List (List Char)}
    {lab : String} {pg : Nat} (h : tocEmit raw rest = some (lab, pg)) :
    tocSkip lab.data pg = false := by
  unfold tocEmit at h
  split at h
  · exact absurd h (by simp)
  · split at h
    · exact absurd h (by simp)
    · rename_i g p heq
      split at h
      · exact absurd h (by simp)
      · rename_i hskip
        injection h with h'
        injection h' with h1 h2
        subst h2
        rw [← h1]
        exact Bool.not_eq_true _ |>.mp hskip

theorem tocGo_skip : ∀ (ls : List (List Char)) {lab : String} {pg : Nat},
    (lab, pg) ∈ tocGo ls → tocSkip lab.data pg = false := by
  intro ls
  induction ls with
  | nil => intro lab pg h; simp [tocGo] at h
  | cons raw rest ih =>
    intro lab pg h
    rw [tocGo] at h
    cases hem : tocEmit raw rest with
    | none => rw [hem] at h; exact ih h
    | some x =>
      rw [hem] at h
      rcases List.mem_cons.mp h with heq | h
      · rw [← heq] at hem; exact tocEmit_skip hem
      · exact ih h

/-! ## Claim theorems -/

/-- C6: the ToC line parser yields `("Label", 30)` for the dot-leader
shape, the simple trailing-integer shape, and the split label/number
shape, and the page text
`"Evaluation Criteria: Gothic Revival .......... 30"` yields exactly
`[("Evaluation Criteria: Gothic Revival", 30)]`. -/
theorem c6_toc_line_shapes :
    parse_toc_lines "Label ........ 30" = [("Label", 30)] ∧
    parse_toc_lines "Label 30" = [("Label", 30)] ∧
    parse_toc_lines "Label\n30" = [("Label", 30)] ∧
    parse_toc_lines "Evaluation Criteria: Gothic Revival .......... 30"
      = [("Evaluation Criteria: Gothic Revival", 30)] :=
  ⟨by decide, by decide, by decide, by decide⟩

/-- C7: the ToC line parser never emits a pair whose page is 0, whose
label is shorter than 3 characters, whose label case-insensitively equals
"contents" or "table of contents" (the code even rejects labels merely
*containing* the latter), whose label starts with "page " (case-
insensitively), or whose label is purely numeric. -/
theorem c7_toc_never_emits (text lab : String) (pg : Nat)
    (h : (lab, pg) ∈ parse_toc_lines text) :
    pg ≠ 0 ∧ 3 ≤ lab.data.length ∧
    pyLower lab.data ≠ "contents".data ∧
    containsSub "table of contents".data (pyLower lab.data) = false ∧
    listStarts "page ".data (pyLower lab.data) = false ∧
    ¬(lab.data ≠ [] ∧ lab.data.all isDigitCh = true) := by
  have hs := tocGo_skip _ h
  unfold tocSkip at hs
  simp only [Bool.or_eq_false_iff, decide_eq_false_iff_not] at hs
  obtain ⟨⟨⟨⟨⟨⟨hpg, hlen⟩, htoc⟩, hcont⟩, hpage⟩, hnum⟩, -⟩ := hs
  refine ⟨hpg, by omega, ?_, htoc, hpage, ?_⟩
  · intro he; exact hcont he
  · rintro ⟨hne, hdig⟩
    rw [isPureNumber, pyStrip_all_digits _ hdig] at hnum
    simp only [Bool.and_eq_false_iff] at hnum
    rcases hnum with h1 | h2
    · simp only [decide_eq_false_iff_not] at h1
      omega
    · rw [hdig] at h2; exact absurd h2 (by simp)

/-- C7 witness: a concrete emitted pair satisfying all the guarantees. -/
theorem secLe_trans : ∀ a b c : Sec,
    secLe a b = true → secLe b c = true → secLe a c = true := by
  intro a b c
  simp only [secLe, decide_eq_true_eq]
  omega

theorem secLe_total : ∀ a b : Sec, secLe a b = true ∨ secLe b a = true := by
  intro a b
  simp only [secLe, decide_eq_true_eq]
  omega

theorem assembleDoc_sections {fn : String} {pages : List String} {e : DocEntry}
    (h : assembleDoc fn pages = some e) :
    e.sections = pySort secLe (sectionsFinal fn pages) := by
  unfold assembleDoc at h
  split at h
  · exact absurd h (by simp)
  · injection h with h'
    rw [← h']

/-- C8: every document entry produced by the manifest build has its
section list sorted ascending by start page, on every extraction path
(the final `sorted(sections, key=lambda s: s["start"])` runs
unconditionally before the entry is stored). -/
theorem c8_sections_sorted (docs : List (String × List String)) (fn : String)
    (e : DocEntry) (h : (fn, e) ∈ build_manifest docs) :
    List.Pairwise (fun a b : Sec => a.start ≤ b.start) e.sections := by
  rw [build_manifest, List.mem_filterMap] at h
  obtain ⟨d, -, hmap⟩ := h
  cases ha : assembleDoc d.1 d.2 with
  | none => rw [ha] at hmap; exact absurd hmap (by simp)
  | some e' =>
    rw [ha] at hmap
    simp only [Option.map_some', Option.some.injEq, Prod.mk.injEq] at hmap
    obtain ⟨-, rfl⟩ := hmap
    rw [assembleDoc_sections ha]
    refine (pairwise_pySort secLe_trans secLe_total _).imp ?_
    intro a b hab
    simpa [secLe] using hab

/-- C8 witness: a concrete built manifest entry, with its sorted sections. -/
theorem c8_witness :
    ("doc.pdf", (⟨"doc", [⟨"Label", 30⟩], 1⟩ : DocEntry)) ∈
      build_manifest [("doc.pdf", ["Label ........ 30"])] ∧
    List.Pairwise (fun a b : Sec => a.start ≤ b.start)
      (⟨"doc", [⟨"Label", 30⟩], 1⟩ : DocEntry).sections :=
  ⟨by decide, c8_sections_sorted [("doc.pdf", ["Label ........ 30"])] "doc.pdf"
    ⟨"doc", [⟨"Label", 30⟩], 1⟩ (by decide)⟩

/-- C1 counterexample: a biography-named document on which the bio scan
finds nothing keeps its ToC-derived sections — the claim's "regardless of
whether the bio scan found anything" fails: the section list is
`[("Label", 30)]` rather than the (empty) bio-scan result. -/
theorem c1_counterexample :
    is_bio_document "bios_x.pdf" = true ∧
    parse_bio_document ["Label ........ 30"] = [] ∧
    assembleDoc "bios_x.pdf" ["Label ........ 30"]
      = some ⟨"bios_x", [⟨"Label", 30⟩], 1⟩ :=
  ⟨by decide, by decide, by decide⟩

/-- C1 amended: for a biography-named document, *when the bio scan finds
at least one entry*, the assembled sections are entirely the bio-scan
results (sorted), discarding any ToC-derived sections regardless of
whether ToC parsing succeeded; when the bio scan finds nothing the code
falls back to the regular (ToC / heading-scan) sections. -/
theorem c1_amended (fn : String) (pages : List String)
    (hb : is_bio_document fn = true) (hne : parse_bio_document pages ≠ []) :
    assembleDoc fn pages =
      some ⟨splitextStem fn, pySort secLe (parse_bio_document pages),
            pages.length⟩ := by
  have h1 : sectionsAfterBio fn pages = parse_bio_document pages := by
    rw [sectionsAfterBio, if_pos hb, if_neg hne]
  have h2 : sectionsFinal fn pages = parse_bio_document pages := by
    rw [sectionsFinal, h1, if_neg hne]
  rw [assembleDoc, h2, if_neg hne]

/-- C1 witness: a concrete bio document whose sections come from the bio
scan. -/
theorem c1_witness :
    is_bio_document "bios_a.pdf" = true ∧
    parse_bio_document ["Smith, John"] ≠ [] ∧
    assembleDoc "bios_a.pdf" ["Smith, John"] =
      some ⟨splitextStem "bios_a.pdf",
            pySort secLe (parse_bio_document ["Smith, John"]),
            (["Smith, John"] : List String).length⟩ :=
  ⟨by decide, by decide,
    c1_amended "bios_a.pdf" ["Smith, John"] (by decide) (by decide)⟩

/-- C2 counterexample: the line `"Smith, John + Jones"` matches both the
'Last, First' name rule and the 'Word + Word' firm rule, yet bio parsing
yields a single entry, not one per matching rule — the rules are an
`if`/`elif` chain, not independent contributors. -/
theorem c2_counterexample :
    bioRule1 "Smith, John + Jones".data = true ∧
    bioRule3 "Smith, John + Jones".data = true ∧
    parse_bio_document ["Smith, John + Jones"]
      = [⟨"Smith, John + Jones", 1⟩] :=
  ⟨by decide, by decide, by decide⟩

/-- C2 amended: in bio-document parsing the three rules are tried in
order ('Last, First', then 'See also:', then 'Word + Word') and only the
first rule whose condition holds can contribute, so every line yields at
most one Section. -/
theorem c2_amended (pageNum : Nat) (line : List Char) :
    (bioLineSections pageNum line).length ≤ 1 := by
  unfold bioLineSections
  split
  · split <;> simp
  · split
    · dsimp only
      split <;> simp
    · split
      · split <;> simp
      · simp

/-- C3 counterexample: the bio-override path performs no deduplication: a
bio document whose page repeats the same name line produces two sections
with identical `(lowercased label, page)` identity. -/
theorem c3_counterexample :
    assembleDoc "bios_a.pdf" ["Smith, John\nSmith, John"]
      = some ⟨"bios_a", [⟨"Smith, John", 1⟩, ⟨"Smith, John", 1⟩], 1⟩ ∧
    ¬ List.Pairwise (fun a b : Sec => secKeyL a ≠ secKeyL b)
      [⟨"Smith, John", 1⟩, ⟨"Smith, John", 1⟩] :=
  ⟨by decide, by decide⟩

/-- C3 amended: whenever the bio override does not apply (non-bio
filename, or bio scan empty), i.e. on the ToC and heading-scan paths, no
two sections of the assembled entry share the same
`(lowercased-trimmed label, start)` identity. -/
theorem c3_amended (fn : String) (pages : List String) (e : DocEntry)
    (h : assembleDoc fn pages = some e)
    (hnb : is_bio_document fn = false ∨ parse_bio_document pages = []) :
    List.Pairwise (fun a b : Sec => secKeyL a ≠ secKeyL b) e.sections := by
  have hfromtoc : sectionsAfterBio fn pages = sectionsFromToc pages := by
    rcases hnb with hf | hemp
    · simp [sectionsAfterBio, hf]
    · simp [sectionsAfterBio, hemp]
  have hpw0 : List.Pairwise (fun a b : Sec => secKeyL a ≠ secKeyL b)
      (sectionsFinal fn pages) := by
    rw [sectionsFinal, hfromtoc]
    split
    · exact (dedupeBy_spec secKeyL [] _).2
    · rw [sectionsFromToc]
      split
      · exact List.Pairwise.nil
      · rw [tocSectionsOf, List.pairwise_map]
        exact (dedupeBy_spec pairKey [] _).2
  rw [assembleDoc_sections h]
  exact (List.Perm.pairwise_iff (fun hab => Ne.symm hab)
    (perm_pySort secLe (sectionsFinal fn pages))).mpr hpw0

/-- C3 witness: a concrete non-bio document whose assembled sections have
pairwise-distinct identities. -/
theorem c3_witness :
    assembleDoc "doc.pdf" ["Label ........ 30"]
      = some ⟨"doc", [⟨"Label", 30⟩], 1⟩ ∧
    List.Pairwise (fun a b : Sec => secKeyL a ≠ secKeyL b)
      (⟨"doc", [⟨"Label", 30⟩], 1⟩ : DocEntry).sections :=
  ⟨by decide, c3_amended "doc.pdf" ["Label ........ 30"]
    ⟨"doc", [⟨"Label", 30⟩], 1⟩ (by decide) (Or.inl (by decide))⟩

theorem c7_witness :
    ("Label", 30) ∈ parse_toc_lines "Label ........ 30" ∧
    (30 ≠ 0 ∧ 3 ≤ "Label".data.length ∧
     pyLower "Label".data ≠ "contents".data ∧
     containsSub "table of contents".data (pyLower "Label".data) = false ∧
     listStarts "page ".data (pyLower "Label".data) = false ∧
     ¬("Label".data ≠ [] ∧ "Label".data.all isDigitCh = true)) :=
  ⟨by decide, c7_toc_never_emits "Label ........ 30" "Label" 30 (by decide)⟩

/-! ## Validation claims (C4) -/

theorem secIssues_nil_iff (fn : String) (i : Nat) (s : ValSec) :
    secIssues fn i s = [] ↔ (s.label.isSome && s.start.isSome) = true := by
  cases hl : s.label <;> cases hs : s.start <;> simp [secIssues, hl, hs]

theorem secsIssues_nil_iff (fn : String) (secs : List ValSec) :
    (secs.enum.flatMap (fun is => secIssues fn is.1 is.2) = []) ↔
    (secs.all (fun s => s.label.isSome && s.start.isSome) = true) := by
  rw [List.flatMap_eq_nil_iff, List.all_eq_true]
  constructor
  · intro h s hs
    have : s ∈ secs.enum.map Prod.snd := by rw [List.enum_map_snd]; exact hs
    obtain ⟨p, hp, hps⟩ := List.mem_map.mp this
    have := h p hp
    rw [hps] at this
    exact (secIssues_nil_iff fn p.1 s).mp this
  · intro h p hp
    have : p.2 ∈ secs := by
      rw [← List.enum_map_snd secs]
      exact List.mem_map_of_mem Prod.snd hp
    exact (secIssues_nil_iff fn p.1 p.2).mpr (h p.2 this)

theorem docIssues_nil_iff (fd : String × ValDoc) :
    docIssues fd = [] ↔ docOk fd = true := by
  rw [docIssues, docOk, List.append_eq_nil]
  cases ht : fd.2.title with
  | none => cases hs : fd.2.sections <;> simp [ht, hs]
  | some tv =>
    cases hs : fd.2.sections with
    | none => simp [ht, hs]
    | some secs =>
      simp only [ht, hs, Option.isSome_some, if_true, true_and, Bool.true_and]
      exact secsIssues_nil_iff fd.1 secs

theorem manifestIssues_nil_iff :
    ∀ m : List (String × ValDoc), manifestIssues m = [] ↔ structuralOk m = true := by
  intro m
  induction m with
  | nil => simp [manifestIssues, structuralOk]
  | cons fd r ih =>
    simp only [manifestIssues, structuralOk, List.flatMap_cons, List.all_cons,
      List.append_eq_nil, Bool.and_eq_true] at *
    rw [docIssues_nil_iff]
    exact and_congr_right fun _ => ih

/-- C4 counterexample: the empty manifest fails validation although no
structural issue (missing `title`/`sections`/`label`/`start`) is present —
`validate_manifest` also fails on `if not manifest`. -/
theorem c4_counterexample :
    validate_manifest [] = false ∧ structuralOk [] = true :=
  ⟨by decide, by decide⟩

/-- C4 amended: validation passes exactly when the manifest is nonempty
and free of structural issues (documents with `title` and `sections`,
sections with `label` and `start`); empty section lists, non-increasing
pages and missing 'Evaluation Criteria' sections are mere warnings and
never affect the verdict. -/
theorem c4_amended (m : List (String × ValDoc)) :
    validate_manifest m = true ↔ (m ≠ [] ∧ structuralOk m = true) := by
  rw [validate_manifest]
  split
  · rename_i hm
    simp [hm]
  · rename_i hm
    split
    · rename_i hiss
      constructor
      · intro habs; exact absurd habs (by simp)
      · rintro ⟨-, hok⟩
        exact absurd ((manifestIssues_nil_iff m).mpr hok) hiss
    · rename_i hiss
      rw [not_ne_iff] at hiss
      simp only [true_iff]
      exact ⟨hm, (manifestIssues_nil_iff m).mp hiss⟩

/-! ## Search claims (C5, C9, C10) -/

theorem resLe_trans : ∀ a b c : SearchResult,
    resLe a b = true → resLe b c = true → resLe a c = true := by
  intro a b c
  simp only [resLe, Bool.or_eq_true, Bool.and_eq_true, decide_eq_true_eq]
  omega

theorem resLe_total : ∀ a b : SearchResult,
    resLe a b = true ∨ resLe b a = true := by
  intro a b
  simp only [resLe, Bool.or_eq_true, Bool.and_eq_true, decide_eq_true_eq]
  omega

theorem mem_resultFor {d t : String} {s : Sec} {q e : List Char}
    {r : SearchResult} (h : r ∈ resultFor d t s q e) : 6 ≤ r.score := by
  unfold resultFor at h
  split at h
  · split at h
    · rename_i h6
      rw [List.mem_singleton] at h
      rw [h]
      exact h6
    · exact absurd h (by simp)
  · exact absurd h (by simp)

theorem mem_searchResultsRaw_score {m : List (String × DocEntry)}
    {q e : List Char} {r : SearchResult} (h : r ∈ searchResultsRaw m q e) :
    6 ≤ r.score := by
  rw [searchResultsRaw, List.mem_flatMap] at h
  obtain ⟨de, -, h⟩ := h
  rw [List.mem_flatMap] at h
  obtain ⟨s, -, h⟩ := h
  exact mem_resultFor h

/-- C5: every returned search result has (doubled) score ≥ 6, i.e. a final
score of at least 3.0, and the returned list is sorted descending by
score with ascending page as the tie-break. -/
theorem c5_threshold_and_ranking (manifest : List (String × DocEntry))
    (query : String) :
    (∀ r ∈ search_all_sections manifest query, 6 ≤ r.score) ∧
    List.Pairwise (fun a b : SearchResult =>
        b.score < a.score ∨ (a.score = b.score ∧ a.page ≤ b.page))
      (search_all_sections manifest query) := by
  constructor
  · intro r hr
    rw [search_all_sections] at hr
    exact mem_searchResultsRaw_score ((perm_pySort resLe _).mem_iff.mp hr)
  · refine (pairwise_pySort resLe_trans resLe_total _).imp ?_
    intro a b hab
    simpa only [resLe, Bool.or_eq_true, Bool.and_eq_true,
      decide_eq_true_eq] using hab

/-- C5 witness: a concrete query whose unique result meets the threshold,
and whose result list is correctly ranked. -/
theorem c5_witness :
    6 ≤ (⟨"doc.pdf", "doc", "Gothic Revival", 12, 16⟩ : SearchResult).score ∧
    List.Pairwise (fun a b : SearchResult =>
        b.score < a.score ∨ (a.score = b.score ∧ a.page ≤ b.page))
      (search_all_sections
        [("doc.pdf", ⟨"doc", [⟨"Gothic Revival", 12⟩], 40⟩)] "gothic") :=
  ⟨(c5_threshold_and_ranking
      [("doc.pdf", ⟨"doc", [⟨"Gothic Revival", 12⟩], 40⟩)] "gothic").1
      ⟨"doc.pdf", "doc", "Gothic Revival", 12, 16⟩ (by decide),
   (c5_threshold_and_ranking
      [("doc.pdf", ⟨"doc", [⟨"Gothic Revival", 12⟩], 40⟩)] "gothic").2⟩

theorem sectionScore_decomp (d l : String) (q e : List Char) :
    sectionScore d l q e = rawScore q e (firstLineOf l) + adjust d l := by
  unfold sectionScore adjust
  dsimp only
  by_cases h1 : containsSub "evaluation criteria".data (firstLineOf l) = true <;>
    by_cases h2 : (containsSub "bios_".data (pyLower d.data) &&
      architect_names.any
        (fun kv => containsSub kv.2.data (firstLineOf l))) = true <;>
    by_cases h3 : 200 < (pyLower l.data).length <;>
    simp [h1, h2, h3] <;> ring

theorem rawScore_le_16 {q e fl : List Char} (h : ¬ q = fl) :
    rawScore q e fl ≤ 16 := by
  unfold rawScore
  rw [if_neg h]
  repeat' split
  all_goals omega

theorem rawScore_exact {q e fl : List Char} (h : q = fl) :
    rawScore q e fl = 20 := by
  unfold rawScore
  rw [if_pos h]

/-- C9: for a fixed document and section, a query whose normalised form
equals the label's first line scores strictly higher than any query whose
normalised form is merely a proper substring of that first line: the
exact tier gives 10.0 (doubled: 20), every other tier gives at most 8.0
(doubled: 16), and the adjustments depend only on the document and label. -/
theorem c9_exact_outranks (doc_file label q1 q2 : String)
    (h1 : pyStrip (pyLower q1.data) = firstLineOf label)
    (h2 : containsSub (pyStrip (pyLower q2.data)) (firstLineOf label) = true)
    (h3 : pyStrip (pyLower q2.data) ≠ firstLineOf label) :
    queryScore doc_file label q2 < queryScore doc_file label q1 := by
  unfold queryScore
  rw [sectionScore_decomp, sectionScore_decomp, rawScore_exact h1]
  have hle := rawScore_le_16
    (e := expandQuery (pyStrip (pyLower q2.data))) h3
  omega

/-- C9 witness: "gothic" (a proper substring of "gothic revival") scores
strictly below the exact query "Gothic Revival" on that label. -/
theorem c9_witness :
    pyStrip (pyLower "Gothic Revival".data) = firstLineOf "Gothic Revival" ∧
    containsSub (pyStrip (pyLower "gothic".data))
      (firstLineOf "Gothic Revival") = true ∧
    pyStrip (pyLower "gothic".data) ≠ firstLineOf "Gothic Revival" ∧
    queryScore "doc.pdf" "Gothic Revival" "gothic" <
      queryScore "doc.pdf" "Gothic Revival" "Gothic Revival" :=
  ⟨by decide, by decide, by decide,
   c9_exact_outranks "doc.pdf" "Gothic Revival" "Gothic Revival" "gothic"
     (by decide) (by decide) (by decide)⟩

theorem containsSub_nil : ∀ fl : List Char, containsSub [] fl = true := by
  intro fl
  cases fl with
  | nil => rfl
  | cons c t => simp [containsSub, listStarts]

theorem sectionScore_empty_ge (d l : String) :
    14 ≤ sectionScore d l [] [] := by
  rw [sectionScore_decomp]
  have h16 : 16 ≤ rawScore [] [] (firstLineOf l) := by
    unfold rawScore
    split
    · omega
    · rw [if_pos (containsSub_nil (firstLineOf l))]
  have hadj : -2 ≤ adjust d l := by
    unfold adjust
    repeat' split
    all_goals omega
  omega

theorem resultFor_empty_len (d t : String) (s : Sec) :
    (resultFor d t s [] []).length = 1 := by
  have h := sectionScore_empty_ge d s.label
  unfold resultFor
  rw [if_pos (by omega), if_pos (by omega)]
  rfl

theorem flatMap_singleton_length {α β : Type} {f : α → List β}
    (hf : ∀ a, (f a).length = 1) :
    ∀ l : List α, (l.flatMap f).length = l.length := by
  intro l
  induction l with
  | nil => rfl
  | cons x xs ih =>
    simp only [List.flatMap_cons, List.length_append, hf, ih, List.length_cons]
    omega

theorem searchResultsRaw_empty_len :
    ∀ m : List (String × DocEntry),
      (searchResultsRaw m [] []).length = totalSections m := by
  intro m
  induction m with
  | nil => rfl
  | cons de r ih =>
    rw [searchResultsRaw, List.flatMap_cons, List.length_append]
    rw [searchResultsRaw] at ih
    rw [ih, flatMap_singleton_length (fun s => resultFor_empty_len de.1 de.2.title s)]
    simp [totalSections]

/-- C10: for a query normalising to the empty string, the search returns
one result per section of every document (no synonym expansion fires, the
empty expanded query is a substring of every first line), every result
clears the 3.0 (doubled: 6) threshold, and the base tier is 8.0
(doubled: 16) for every label with a nonempty first line. -/
theorem c10_empty_query (manifest : List (String × DocEntry)) (query : String)
    (h : pyStrip (pyLower query.data) = []) :
    expandQuery (pyStrip (pyLower query.data)) = [] ∧
    (search_all_sections manifest query).length = totalSections manifest ∧
    (∀ r ∈ search_all_sections manifest query, 6 ≤ r.score) ∧
    (∀ label : String, firstLineOf label ≠ [] →
      rawScore [] [] (firstLineOf label) = 16) := by
  have hexp : expandQuery ([] : List Char) = [] := by decide
  refine ⟨by rw [h]; exact hexp, ?_, ?_, ?_⟩
  · rw [search_all_sections, h, hexp, (perm_pySort resLe _).length_eq]
    exact searchResultsRaw_empty_len manifest
  · intro r hr
    rw [search_all_sections] at hr
    exact mem_searchResultsRaw_score ((perm_pySort resLe _).mem_iff.mp hr)
  · intro label hfl
    unfold rawScore
    rw [if_neg (fun heq => hfl heq.symm), if_pos (containsSub_nil _)]

/-- C10 witness: the whitespace query `" "` on a one-section manifest. -/
theorem c10_witness :
    expandQuery (pyStrip (pyLower " ".data)) = [] ∧
    (search_all_sections
      [("doc.pdf", ⟨"doc", [⟨"Gothic Revival", 12⟩], 40⟩)] " ").length
      = totalSections [("doc.pdf", ⟨"doc", [⟨"Gothic Revival", 12⟩], 40⟩)] ∧
    (∀ r ∈ search_all_sections
        [("doc.pdf", ⟨"doc", [⟨"Gothic Revival", 12⟩], 40⟩)] " ",
      6 ≤ r.score) ∧
    (∀ label : String, firstLineOf label ≠ [] →
      rawScore [] [] (firstLineOf label) = 16) :=
  c10_empty_query [("doc.pdf", ⟨"doc", [⟨"Gothic Revival", 12⟩], 40⟩)] " "
    (by decide)

end SfHcs
